import Mathlib

/-!
Shallow embedding of `encryptedstring.go` (package `encryptedstring`).

Byte slices are modelled as `List Nat`; Go strings are byte sequences, so the
plaintext of an `EncryptedString` / `BlindIndexHash` is also a `List Nat`.
The external Go standard-library primitives (AES-GCM `Seal`/`Open` from
`crypto/cipher`, HMAC-SHA512 from `crypto/hmac`/`crypto/sha512`, URL-safe
base64 from `encoding/base64`) are not part of this repository; they are
passed to each operation as explicit function parameters, and the properties
their documentation guarantees are taken as hypotheses localized to the
instance where each theorem needs them.  Randomness (the 12-byte nonce read
from `crypto/rand`) is an explicit input.  The process-wide mutable key map
`encryptionKeys` is explicit state (a `Registry` value threaded through the
operations).
-/

/-- A Go byte slice / string payload: a list of byte values. -/
abbrev Bytes := List Nat

deriving instance DecidableEq for Except

/-- The error values of the package, plus the errors the Go standard library
produces on the paths the code can take: `keySize n` is
`aes.KeySizeError(n)` returned by `aes.NewCipher` for an invalid key length,
and `authFailure` is the single generic error returned by `gcm.Open` on any
integrity failure. -/
inductive Err where
  | shortCipher
  | versionMismatch
  | srcNotBytes
  | noSuchKey
  | keyAlreadyExists
  | keySize (n : Nat)
  | authFailure
deriving DecidableEq, Repr

/-- The `encryptionKeys` map: association list from key name to key bytes.
`AddKey` preserves name uniqueness, so first-match lookup is map lookup. -/
abbrev Registry := List (String × Bytes)

/-- Go map lookup `encryptionKeys[name]` with its `exists` flag. -/
def lookupKey (reg : Registry) (name : String) : Option Bytes :=
  (reg.find? fun p => p.1 == name).map Prod.snd

/-- Go map indexing `encryptionKeys[name]`: a missing name yields the nil
slice, i.e. the empty byte list. -/
def getKey (reg : Registry) (name : String) : Bytes :=
  (lookupKey reg name).getD []

/-- `AddKey(name, key)`: refuses a duplicate name with
`ErrKeyAlreadyExists`, otherwise inserts the binding.  Returns the registry
after the call together with the returned error. -/
def AddKey (reg : Registry) (name : String) (key : Bytes) :
    Registry × Option Err :=
  if (lookupKey reg name).isSome then
    (reg, some Err.keyAlreadyExists)
  else
    (reg ++ [(name, key)], none)

/-- `encryptionVersion byte = 0x00`. -/
def encryptionVersion : Nat := 0

/-- `blockSize = 12`, the nonce length. -/
def blockSize : Nat := 12

/-- The key-length check performed by `aes.NewCipher`: AES accepts exactly
16-, 24- or 32-byte keys and otherwise returns `aes.KeySizeError`. -/
def aesKeyOk (key : Bytes) : Bool :=
  key.length == 16 || key.length == 24 || key.length == 32

/-- `EncryptedString.Encrypt`.  `sealFn key nonce plaintext` stands for
`cipher.NewGCM(aes.NewCipher(key)).Seal(nil, nonce, plaintext, nil)`; the
12 random bytes read from `crypto/rand` are the `nonce` argument.  The Go
code first builds the cipher (failing with the key-size error), then emits
the version byte, the nonce, and the sealed data.  There is no special case
for empty plaintext. -/
def EncryptedString.Encrypt (sealFn : Bytes → Bytes → Bytes → Bytes)
    (reg : Registry) (nonce : Bytes) (e : Bytes) : Except Err Bytes :=
  let key := getKey reg "encrypt"
  if aesKeyOk key then
    Except.ok (encryptionVersion :: (nonce ++ sealFn key nonce e))
  else
    Except.error (Err.keySize key.length)

/-- Outcome of `EncryptedString.Decrypt`: the Go function can panic
(index out of range on `ciphertext[0]`), return an error, or return the
plaintext. -/
inductive DecOutcome where
  | panicked
  | err (e : Err)
  | ok (p : Bytes)
deriving DecidableEq, Repr

/-- `EncryptedString.Decrypt`.  `openFn key nonce sealed` stands for
`cipher.NewGCM(aes.NewCipher(key)).Open(nil, nonce, sealed, nil)`, `none`
being its single generic authentication-failure error.  Order of operations
follows the source: build the cipher, read `ciphertext[0]` (panicking on an
empty slice), compare against `encryptionVersion`, check
`len(ciphertext) < blockSize+1`, split off `ciphertext[1:13]` as nonce and
`ciphertext[13:]` as sealed data, and open. -/
def EncryptedString.Decrypt (openFn : Bytes → Bytes → Bytes → Option Bytes)
    (reg : Registry) (ciphertext : Bytes) : DecOutcome :=
  let key := getKey reg "encrypt"
  if aesKeyOk key then
    match ciphertext with
    | [] => DecOutcome.panicked
    | v :: rest =>
      if v ≠ encryptionVersion then
        DecOutcome.err Err.versionMismatch
      else if (v :: rest).length < blockSize + 1 then
        DecOutcome.err Err.shortCipher
      else
        match openFn key (rest.take blockSize) (rest.drop blockSize) with
        | some p => DecOutcome.ok p
        | none => DecOutcome.err Err.authFailure
  else
    DecOutcome.err (Err.keySize key.length)

/-- `EncryptedString.Value`: returns the empty byte slice for the empty
string without calling `Encrypt`, otherwise encrypts. -/
def EncryptedString.Value (sealFn : Bytes → Bytes → Bytes → Bytes)
    (reg : Registry) (nonce : Bytes) (e : Bytes) : Except Err Bytes :=
  if e = [] then Except.ok []
  else EncryptedString.Encrypt sealFn reg nonce e

/-- The `src interface{}` argument of `Scan`: either a byte slice or a value
of any other dynamic type. -/
inductive SqlSrc where
  | bytes (v : Bytes)
  | other
deriving DecidableEq

/-- Outcome of `Scan`: the final receiver value together with the returned
error, or a propagated panic from `Decrypt`. -/
inductive ScanOutcome where
  | panicked
  | result (e : Bytes) (err : Option Err)
deriving DecidableEq, Repr

/-- `EncryptedString.Scan`: rejects a non-byte-slice src with
`ErrSrcNotBytes` (receiver untouched), maps a zero-length slice to the empty
string, otherwise decrypts and assigns the receiver only on success. -/
def EncryptedString.Scan (openFn : Bytes → Bytes → Bytes → Option Bytes)
    (reg : Registry) (e : Bytes) (src : SqlSrc) : ScanOutcome :=
  match src with
  | SqlSrc.other => ScanOutcome.result e (some Err.srcNotBytes)
  | SqlSrc.bytes v =>
    if v.length = 0 then
      ScanOutcome.result [] none
    else
      match EncryptedString.Decrypt openFn reg v with
      | DecOutcome.ok val => ScanOutcome.result val none
      | DecOutcome.err er => ScanOutcome.result e (some er)
      | DecOutcome.panicked => ScanOutcome.panicked

/-- `BlindIndexHash.GetHash`.  `hmacFn key msg` stands for the digest of
`hmac.New(sha512.New, key)` over `msg`.  `hash.Hash.Write` never returns an
error in Go, and HMAC accepts a key of any length (including the nil slice a
missing registry entry yields), so `GetHash` always succeeds. -/
def BlindIndexHash.GetHash (hmacFn : Bytes → Bytes → Bytes)
    (reg : Registry) (b : Bytes) : Except Err Bytes :=
  Except.ok (hmacFn (getKey reg "blindIndex") b)

/-- `BlindIndexHash.GetBase64`.  `b64encode` stands for
`base64.URLEncoding.EncodeToString`. -/
def BlindIndexHash.GetBase64 (hmacFn : Bytes → Bytes → Bytes)
    (b64encode : Bytes → String) (reg : Registry) (b : Bytes) :
    Except Err String :=
  match BlindIndexHash.GetHash hmacFn reg b with
  | Except.ok byts => Except.ok (b64encode byts)
  | Except.error e => Except.error e

/-- `BlindIndexHash.Value`: returns the empty string for empty input without
hashing, otherwise returns the base64 digest. -/
def BlindIndexHash.Value (hmacFn : Bytes → Bytes → Bytes)
    (b64encode : Bytes → String) (reg : Registry) (b : Bytes) :
    Except Err String :=
  if b = [] then Except.ok ""
  else BlindIndexHash.GetBase64 hmacFn b64encode reg b

/-- Flip bit `b` of byte `j` of a byte list (tampering model). -/
def flipBit (l : Bytes) (j b : Nat) : Bytes :=
  l.set j (Nat.xor (l.getD j 0) (2 ^ b))

/-! ### Concrete stand-ins for the external primitives

Executable toy instances used to evaluate the embedding at concrete inputs
(witnesses and counterexamples).  They satisfy, at the concrete points
needed, the contract properties of the real primitives: the toy AEAD appends
a 16-byte tag and `toyOpen` inverts `toySeal`, `toyHmac` returns 64 bytes,
`toyB64` returns `4 * ceil(n/3)` characters. -/

def toyMac (key nonce p : Bytes) : Nat :=
  (key.sum + nonce.sum + p.sum) % 256

def toySeal (key nonce p : Bytes) : Bytes :=
  p ++ List.replicate 16 (toyMac key nonce p)

def toyOpen (key nonce c : Bytes) : Option Bytes :=
  if 16 ≤ c.length then
    if c.drop (c.length - 16) =
        List.replicate 16 (toyMac key nonce (c.take (c.length - 16))) then
      some (c.take (c.length - 16))
    else none
  else none

def toyHmac (key m : Bytes) : Bytes :=
  List.replicate 64 ((key.sum + m.sum) % 256)

def toyB64 (bs : Bytes) : String :=
  String.mk (List.replicate (4 * ((bs.length + 2) / 3)) 'A')

/-- A registry holding a valid 16-byte AES key under "encrypt". -/
def reg0 : Registry := [("encrypt", List.replicate 16 7)]

/-- A registry holding valid keys under both conventional names. -/
def reg1 : Registry :=
  [("encrypt", List.replicate 16 7), ("blindIndex", List.replicate 16 9)]

/-- A concrete 12-byte nonce. -/
def nonce0 : Bytes := List.replicate 12 1

/-- A concrete valid ciphertext: `Encrypt` of the two-byte plaintext
`[104, 105]` under `reg0` with nonce `nonce0` and the toy AEAD. -/
def c0 : Bytes :=
  encryptionVersion :: (nonce0 ++ toySeal (getKey reg0 "encrypt") nonce0 [104, 105])

/-! ### Helper lemmas shared by the claim theorems -/

/-- Shape of a successful `Encrypt` result: version byte, then nonce, then
sealed data. -/
theorem Encrypt_eq_ok (sealFn : Bytes → Bytes → Bytes → Bytes)
    (reg : Registry) (nonce p c : Bytes)
    (hkey : aesKeyOk (getKey reg "encrypt") = true)
    (henc : EncryptedString.Encrypt sealFn reg nonce p = Except.ok c) :
    c = encryptionVersion :: (nonce ++ sealFn (getKey reg "encrypt") nonce p) := by
  simp only [EncryptedString.Encrypt, hkey, if_true] at henc
  exact (Except.ok.inj henc).symm

/-- `Decrypt` on a well-formed header (correct version byte, 12-byte nonce)
reduces to the AEAD open call on the sealed region. -/
theorem Decrypt_good_header (openFn : Bytes → Bytes → Bytes → Option Bytes)
    (reg : Registry) (nonce sealed : Bytes)
    (hkey : aesKeyOk (getKey reg "encrypt") = true)
    (hn : nonce.length = 12) :
    EncryptedString.Decrypt openFn reg (encryptionVersion :: (nonce ++ sealed)) =
      match openFn (getKey reg "encrypt") nonce sealed with
      | some p => DecOutcome.ok p
      | none => DecOutcome.err Err.authFailure := by
  have hn' : nonce.length = blockSize := hn
  have hlen : ¬ (nonce.length + sealed.length < blockSize) := by
    rw [hn']
    omega
  simp [EncryptedString.Decrypt, hkey, hlen, List.take_left' hn', List.drop_left' hn']

/-- Claim C1: with a valid AES key registered under "encrypt", decrypting
the result of encrypting any plaintext (the empty string included) returns
that plaintext, given the AEAD contract (`Open` inverts `Seal` at the
key/nonce/plaintext used, per the `crypto/cipher` documentation). -/
theorem C1_round_trip (sealFn : Bytes → Bytes → Bytes → Bytes)
    (openFn : Bytes → Bytes → Bytes → Option Bytes)
    (reg : Registry) (nonce p c : Bytes)
    (hkey : aesKeyOk (getKey reg "encrypt") = true)
    (hn : nonce.length = 12)
    (hopen : openFn (getKey reg "encrypt") nonce
      (sealFn (getKey reg "encrypt") nonce p) = some p)
    (henc : EncryptedString.Encrypt sealFn reg nonce p = Except.ok c) :
    EncryptedString.Decrypt openFn reg c = DecOutcome.ok p := by
  have hc := Encrypt_eq_ok sealFn reg nonce p c hkey henc
  subst hc
  rw [Decrypt_good_header openFn reg nonce _ hkey hn, hopen]

/-- Witness for C1 at a concrete key, nonce and plaintext. -/
theorem C1_round_trip_witness :
    aesKeyOk (getKey reg0 "encrypt") = true ∧
    EncryptedString.Decrypt toyOpen reg0 c0 = DecOutcome.ok [104, 105] :=
  ⟨by decide,
   C1_round_trip toySeal toyOpen reg0 nonce0 [104, 105] c0 (by decide) (by decide)
     (by decide) (by rfl)⟩

/-- Counterexample to claim C2 as stated: `Encrypt` itself has no
empty-plaintext special case; on the empty plaintext it still emits the
version byte, a 12-byte nonce and the sealed data (29 bytes with a 16-byte
tag), and it consumes the nonce randomness. -/
theorem C2_counterexample :
    EncryptedString.Encrypt toySeal reg0 nonce0 [] ≠ Except.ok ([] : Bytes) ∧
    EncryptedString.Encrypt toySeal reg0 nonce0 [] =
      Except.ok (encryptionVersion ::
        (nonce0 ++ toySeal (getKey reg0 "encrypt") nonce0 [])) ∧
    (encryptionVersion ::
        (nonce0 ++ toySeal (getKey reg0 "encrypt") nonce0 [])).length = 29 := by
  refine ⟨by decide, by rfl, by decide⟩

/-- Claim C2 as amended: the zero-length result for the empty plaintext is
produced by `Value` (the database-binding path), which short-circuits before
calling `Encrypt`; `Encrypt` itself on the empty plaintext emits the full
`version || nonce || sealed` ciphertext. -/
theorem C2_empty_plaintext_paths (sealFn : Bytes → Bytes → Bytes → Bytes)
    (reg : Registry) (nonce : Bytes)
    (hkey : aesKeyOk (getKey reg "encrypt") = true) :
    EncryptedString.Value sealFn reg nonce [] = Except.ok [] ∧
    EncryptedString.Encrypt sealFn reg nonce [] =
      Except.ok (encryptionVersion ::
        (nonce ++ sealFn (getKey reg "encrypt") nonce [])) := by
  constructor
  · rfl
  · simp [EncryptedString.Encrypt, hkey]

/-- Witness for the amended C2 at a concrete registry and nonce. -/
theorem C2_empty_plaintext_paths_witness :
    aesKeyOk (getKey reg0 "encrypt") = true ∧
    (EncryptedString.Value toySeal reg0 nonce0 [] = Except.ok [] ∧
      EncryptedString.Encrypt toySeal reg0 nonce0 [] =
        Except.ok (encryptionVersion ::
          (nonce0 ++ toySeal (getKey reg0 "encrypt") nonce0 []))) :=
  ⟨by decide, C2_empty_plaintext_paths toySeal reg0 nonce0 (by decide)⟩

/-- Counterexample to claim C3 as stated: with a valid key registered,
`Decrypt` on the empty ciphertext reads `ciphertext[0]` before any length
check and panics (index out of range); it does not return the empty
plaintext. -/
theorem C3_counterexample :
    EncryptedString.Decrypt toyOpen reg0 [] = DecOutcome.panicked ∧
    DecOutcome.panicked ≠ DecOutcome.ok ([] : Bytes) := by
  refine ⟨by rfl, by decide⟩

/-- Claim C3 as amended: the empty-ciphertext case is handled by `Scan`,
which maps a zero-length byte slice to the empty string with no error before
calling `Decrypt`; `Decrypt` itself panics on empty input when the
registered key is valid. -/
theorem C3_empty_input_handling (openFn : Bytes → Bytes → Bytes → Option Bytes)
    (reg : Registry) (e : Bytes)
    (hkey : aesKeyOk (getKey reg "encrypt") = true) :
    EncryptedString.Scan openFn reg e (SqlSrc.bytes []) =
      ScanOutcome.result [] none ∧
    EncryptedString.Decrypt openFn reg [] = DecOutcome.panicked := by
  constructor
  · rfl
  · simp [EncryptedString.Decrypt, hkey]

/-- Witness for the amended C3 at a concrete registry and receiver. -/
theorem C3_empty_input_handling_witness :
    aesKeyOk (getKey reg0 "encrypt") = true ∧
    (EncryptedString.Scan toyOpen reg0 [9] (SqlSrc.bytes []) =
        ScanOutcome.result [] none ∧
      EncryptedString.Decrypt toyOpen reg0 [] = DecOutcome.panicked) :=
  ⟨by decide, C3_empty_input_handling toyOpen reg0 [9] (by decide)⟩

/-- Counterexample to claim C4 as stated: truncating a valid non-empty
ciphertext to length 0 (a length fewer than 13) makes `Decrypt` panic on the
out-of-range read of `ciphertext[0]`, not fail with ShortCipher. -/
theorem C4_counterexample :
    EncryptedString.Decrypt toyOpen reg0 (c0.take 0) = DecOutcome.panicked ∧
    DecOutcome.panicked ≠ DecOutcome.err Err.shortCipher := by
  refine ⟨by rfl, by decide⟩

/-- `Decrypt` on a correctly versioned ciphertext whose remainder is shorter
than the nonce length fails with ShortCipher. -/
theorem Decrypt_short (openFn : Bytes → Bytes → Bytes → Option Bytes)
    (reg : Registry) (rest : Bytes)
    (hkey : aesKeyOk (getKey reg "encrypt") = true)
    (hshort : rest.length < 12) :
    EncryptedString.Decrypt openFn reg (encryptionVersion :: rest) =
      DecOutcome.err Err.shortCipher := by
  have hlen : (encryptionVersion :: rest).length < blockSize + 1 := by
    simp only [List.length_cons, blockSize]
    omega
  have hshort2 : rest.length < blockSize := by
    simp only [blockSize]
    omega
  simp [EncryptedString.Decrypt, hkey, hlen, hshort2]

/-- Claim C4 as amended: truncating a valid non-empty ciphertext to any
length between 1 and 12 makes `Decrypt` fail with ShortCipher (truncation to
length 0 instead panics). -/
theorem C4_truncation_short_cipher (sealFn : Bytes → Bytes → Bytes → Bytes)
    (openFn : Bytes → Bytes → Bytes → Option Bytes)
    (reg : Registry) (nonce p c : Bytes) (t : Nat)
    (hkey : aesKeyOk (getKey reg "encrypt") = true)
    (henc : EncryptedString.Encrypt sealFn reg nonce p = Except.ok c)
    (ht1 : 1 ≤ t) (ht2 : t ≤ 12) :
    EncryptedString.Decrypt openFn reg (c.take t) =
      DecOutcome.err Err.shortCipher := by
  have hc := Encrypt_eq_ok sealFn reg nonce p c hkey henc
  subst hc
  obtain ⟨u, rfl⟩ : ∃ u, t = u + 1 := ⟨t - 1, by omega⟩
  rw [List.take_succ_cons]
  apply Decrypt_short openFn reg _ hkey
  rw [List.length_take]
  omega

/-- Witness for the amended C4: the concrete valid ciphertext `c0` truncated
to 5 bytes yields ShortCipher. -/
theorem C4_truncation_short_cipher_witness :
    aesKeyOk (getKey reg0 "encrypt") = true ∧ 1 ≤ 5 ∧ 5 ≤ 12 ∧
    EncryptedString.Decrypt toyOpen reg0 (c0.take 5) =
      DecOutcome.err Err.shortCipher :=
  ⟨by decide, by decide, by decide,
   C4_truncation_short_cipher toySeal toyOpen reg0 nonce0 [104, 105] c0 5
     (by decide) (by rfl) (by decide) (by decide)⟩

/-- Claim C5: replacing byte 0 of a valid ciphertext with any value other
than the supported version byte 0x00 makes `Decrypt` fail with
VersionMismatch (the version test runs before the length test and before the
AEAD open). -/
theorem C5_version_mismatch (sealFn : Bytes → Bytes → Bytes → Bytes)
    (openFn : Bytes → Bytes → Bytes → Option Bytes)
    (reg : Registry) (nonce p c : Bytes) (v : Nat)
    (hkey : aesKeyOk (getKey reg "encrypt") = true)
    (henc : EncryptedString.Encrypt sealFn reg nonce p = Except.ok c)
    (hv : v ≠ encryptionVersion) :
    EncryptedString.Decrypt openFn reg (c.set 0 v) =
      DecOutcome.err Err.versionMismatch := by
  have hc := Encrypt_eq_ok sealFn reg nonce p c hkey henc
  subst hc
  have hset : (encryptionVersion ::
      (nonce ++ sealFn (getKey reg "encrypt") nonce p)).set 0 v =
      v :: (nonce ++ sealFn (getKey reg "encrypt") nonce p) := rfl
  rw [hset]
  simp [EncryptedString.Decrypt, hkey, hv]

/-- Witness for C5: byte 0 of the concrete valid ciphertext `c0` replaced
with 3 yields VersionMismatch. -/
theorem C5_version_mismatch_witness :
    aesKeyOk (getKey reg0 "encrypt") = true ∧ (3 : Nat) ≠ encryptionVersion ∧
    EncryptedString.Decrypt toyOpen reg0 (c0.set 0 3) =
      DecOutcome.err Err.versionMismatch :=
  ⟨by decide, by decide,
   C5_version_mismatch toySeal toyOpen reg0 nonce0 [104, 105] c0 3
     (by decide) (by rfl) (by decide)⟩

/-- Flipping a bit at byte offset `13 + j` of a well-formed ciphertext
(version byte, 12-byte nonce, sealed data) flips bit `b` of byte `j` of the
sealed region and leaves header and nonce intact. -/
theorem flipBit_ciphertext (nonce sealed : Bytes) (j b : Nat)
    (hn : nonce.length = 12) :
    flipBit (encryptionVersion :: (nonce ++ sealed)) (13 + j) b =
      encryptionVersion :: (nonce ++ flipBit sealed j b) := by
  have h13 : 13 + j = (12 + j) + 1 := by omega
  have hge : nonce.length ≤ 12 + j := by omega
  have hcanc : 12 + j - nonce.length = j := by omega
  have hgd : (encryptionVersion :: (nonce ++ sealed)).getD (13 + j) 0 =
      sealed.getD j 0 := by
    rw [h13, List.getD_cons_succ, List.getD_append_right nonce sealed 0 (12 + j) hge,
      hcanc]
  unfold flipBit
  rw [hgd, h13]
  show encryptionVersion :: ((nonce ++ sealed).set (12 + j) _) = _
  rw [List.set_append, if_neg (by omega), hcanc]

/-- Claim C6: flipping any bit of any byte in the sealed-data region
(offsets 13 and up) of a valid ciphertext of a non-empty plaintext makes
`Decrypt` fail with the authentication failure, given that the AEAD rejects
the tampered sealed data (the `crypto/cipher` GCM contract); moreover every
AEAD open failure — whatever its cause — surfaces as that same single
generic error. -/
theorem C6_tamper_auth_failure (sealFn : Bytes → Bytes → Bytes → Bytes)
    (openFn : Bytes → Bytes → Bytes → Option Bytes)
    (reg : Registry) (nonce p c : Bytes) (j b : Nat) (sealedArb : Bytes)
    (hkey : aesKeyOk (getKey reg "encrypt") = true)
    (hn : nonce.length = 12)
    (henc : EncryptedString.Encrypt sealFn reg nonce p = Except.ok c)
    (hflip : openFn (getKey reg "encrypt") nonce
      (flipBit (sealFn (getKey reg "encrypt") nonce p) j b) = none)
    (harb : openFn (getKey reg "encrypt") nonce sealedArb = none) :
    EncryptedString.Decrypt openFn reg (flipBit c (13 + j) b) =
      DecOutcome.err Err.authFailure ∧
    EncryptedString.Decrypt openFn reg (encryptionVersion :: (nonce ++ sealedArb)) =
      DecOutcome.err Err.authFailure := by
  have hc := Encrypt_eq_ok sealFn reg nonce p c hkey henc
  subst hc
  constructor
  · rw [flipBit_ciphertext nonce _ j b hn,
      Decrypt_good_header openFn reg nonce _ hkey hn, hflip]
  · rw [Decrypt_good_header openFn reg nonce _ hkey hn, harb]

/-- Witness for C6: bit 3 of sealed byte 1 of the concrete valid ciphertext
`c0` flipped (ciphertext byte 14), and the concrete rejected sealed region
`[]`, both yield the single authentication failure. -/
theorem C6_tamper_auth_failure_witness :
    aesKeyOk (getKey reg0 "encrypt") = true ∧
    toyOpen (getKey reg0 "encrypt") nonce0
      (flipBit (toySeal (getKey reg0 "encrypt") nonce0 [104, 105]) 1 3) = none ∧
    (EncryptedString.Decrypt toyOpen reg0 (flipBit c0 (13 + 1) 3) =
        DecOutcome.err Err.authFailure ∧
      EncryptedString.Decrypt toyOpen reg0 (encryptionVersion :: (nonce0 ++ [])) =
        DecOutcome.err Err.authFailure) :=
  ⟨by decide, by decide,
   C6_tamper_auth_failure toySeal toyOpen reg0 nonce0 [104, 105] c0 1 3 []
     (by decide) (by decide) (by rfl) (by decide) (by decide)⟩

/-- Claim C7: a second `AddKey` under an already-registered name returns
KeyAlreadyExists and leaves the registry unchanged, so the originally
registered key bytes stay associated with the name. -/
theorem C7_duplicate_addkey (reg : Registry) (name : String) (key k0 : Bytes)
    (hexist : lookupKey reg name = some k0) :
    AddKey reg name key = (reg, some Err.keyAlreadyExists) ∧
    lookupKey (AddKey reg name key).1 name = some k0 := by
  have hsome : (lookupKey reg name).isSome = true := by
    rw [hexist]
    rfl
  refine ⟨?_, ?_⟩ <;> simp [AddKey, hsome, hexist]

/-- Witness for C7 at a concrete registry already holding "encrypt". -/
theorem C7_duplicate_addkey_witness :
    lookupKey reg0 "encrypt" = some (List.replicate 16 7) ∧
    (AddKey reg0 "encrypt" [1, 2, 3] = (reg0, some Err.keyAlreadyExists) ∧
      lookupKey (AddKey reg0 "encrypt" [1, 2, 3]).1 "encrypt" =
        some (List.replicate 16 7)) :=
  ⟨by decide, C7_duplicate_addkey reg0 "encrypt" [1, 2, 3] _ (by decide)⟩

/-- Counterexample to claim C8 as stated: with no keys registered at all,
`GetHash` does not fail — HMAC accepts the nil key a missing map entry
yields and returns a digest — and `Encrypt` fails with the cipher's
key-size error for the nil key, which is not the NoSuchKey error. -/
theorem C8_counterexample :
    BlindIndexHash.GetHash toyHmac ([] : Registry) [120] =
      Except.ok (toyHmac [] [120]) ∧
    EncryptedString.Encrypt toySeal ([] : Registry) nonce0 [1] =
      Except.error (Err.keySize 0) ∧
    Err.keySize 0 ≠ Err.noSuchKey := by
  refine ⟨by rfl, by rfl, by decide⟩

/-- Claim C8 as amended: with the "encrypt" name unregistered, `Encrypt` and
`Decrypt` fail with `aes.KeySizeError(0)` (the error the cipher construction
raises for the nil key a missing map entry yields), not with NoSuchKey;
with the "blindIndex" name unregistered, `GetHash` succeeds, computing the
digest under the nil key.  The package's `ErrNoSuchKey` value is declared
but returned by no operation. -/
theorem C8_missing_key_behavior (sealFn : Bytes → Bytes → Bytes → Bytes)
    (openFn : Bytes → Bytes → Bytes → Option Bytes)
    (hmacFn : Bytes → Bytes → Bytes)
    (reg : Registry) (nonce p ct b : Bytes)
    (hse : lookupKey reg "encrypt" = none)
    (hsb : lookupKey reg "blindIndex" = none) :
    EncryptedString.Encrypt sealFn reg nonce p = Except.error (Err.keySize 0) ∧
    EncryptedString.Decrypt openFn reg ct = DecOutcome.err (Err.keySize 0) ∧
    BlindIndexHash.GetHash hmacFn reg b = Except.ok (hmacFn [] b) := by
  have hk : getKey reg "encrypt" = [] := by simp [getKey, hse]
  have hk2 : getKey reg "blindIndex" = [] := by simp [getKey, hsb]
  have hbad : aesKeyOk [] = false := by decide
  refine ⟨?_, ?_, ?_⟩
  · simp [EncryptedString.Encrypt, hk, hbad]
  · simp [EncryptedString.Decrypt, hk, hbad]
  · simp [BlindIndexHash.GetHash, hk2]

/-- Witness for the amended C8 on the empty registry. -/
theorem C8_missing_key_behavior_witness :
    lookupKey ([] : Registry) "encrypt" = none ∧
    lookupKey ([] : Registry) "blindIndex" = none ∧
    (EncryptedString.Encrypt toySeal ([] : Registry) nonce0 [1] =
        Except.error (Err.keySize 0) ∧
      EncryptedString.Decrypt toyOpen ([] : Registry) c0 =
        DecOutcome.err (Err.keySize 0) ∧
      BlindIndexHash.GetHash toyHmac ([] : Registry) [120] =
        Except.ok (toyHmac [] [120])) :=
  ⟨by decide, by decide,
   C8_missing_key_behavior toySeal toyOpen toyHmac [] nonce0 [1] c0 [120]
     (by decide) (by decide)⟩

/-- Counterexample to claim C9 as stated: `GetHash` has no empty-input
special case — hashing the empty input computes a real 64-byte keyed digest,
not an empty/sentinel output. -/
theorem C9_counterexample :
    BlindIndexHash.GetHash toyHmac reg1 [] =
      Except.ok (toyHmac (List.replicate 16 9) []) ∧
    (toyHmac (List.replicate 16 9) []).length = 64 ∧
    toyHmac (List.replicate 16 9) [] ≠ [] := by
  refine ⟨by rfl, by decide, by decide⟩

/-- Claim C9 as amended: the empty/sentinel output for empty input is
produced by `BlindIndexHash.Value`, which returns the empty string before
hashing; for non-empty input `Value` returns the base64 text of the digest,
which is non-empty (88 characters for a 64-byte digest) and hence distinct
from the sentinel.  `GetHash` itself computes a real digest even on empty
input. -/
theorem C9_value_sentinel (hmacFn : Bytes → Bytes → Bytes)
    (b64encode : Bytes → String) (reg : Registry) (b : Bytes)
    (hb : b ≠ [])
    (hlen : (b64encode (hmacFn (getKey reg "blindIndex") b)).length = 88) :
    BlindIndexHash.Value hmacFn b64encode reg [] = Except.ok "" ∧
    BlindIndexHash.Value hmacFn b64encode reg b =
      Except.ok (b64encode (hmacFn (getKey reg "blindIndex") b)) ∧
    b64encode (hmacFn (getKey reg "blindIndex") b) ≠ "" := by
  refine ⟨rfl, ?_, ?_⟩
  · simp [BlindIndexHash.Value, hb, BlindIndexHash.GetBase64,
      BlindIndexHash.GetHash]
  · intro h
    rw [h] at hlen
    simp at hlen

/-- Witness for the amended C9 at a concrete key and input. -/
theorem C9_value_sentinel_witness :
    ([104] : Bytes) ≠ [] ∧
    (toyB64 (toyHmac (getKey reg1 "blindIndex") [104])).length = 88 ∧
    (BlindIndexHash.Value toyHmac toyB64 reg1 [] = Except.ok "" ∧
      BlindIndexHash.Value toyHmac toyB64 reg1 [104] =
        Except.ok (toyB64 (toyHmac (getKey reg1 "blindIndex") [104])) ∧
      toyB64 (toyHmac (getKey reg1 "blindIndex") [104]) ≠ "") :=
  ⟨by decide, by decide,
   C9_value_sentinel toyHmac toyB64 reg1 [104] (by decide) (by decide)⟩

/-- Claim C10: `Scan` is atomic on error — whenever it returns a non-nil
error (src not a byte slice, or decryption failing), the receiver keeps its
previous value; it is reassigned only on the nil-error paths. -/
theorem C10_scan_atomic_on_error (openFn : Bytes → Bytes → Bytes → Option Bytes)
    (reg : Registry) (e eNew : Bytes) (src : SqlSrc) (er : Err)
    (hres : EncryptedString.Scan openFn reg e src =
      ScanOutcome.result eNew (some er)) :
    eNew = e := by
  cases src with
  | other =>
    simp only [EncryptedString.Scan] at hres
    exact (ScanOutcome.result.inj hres).1.symm
  | bytes v =>
    simp only [EncryptedString.Scan] at hres
    split at hres
    · exact absurd (ScanOutcome.result.inj hres).2 (by simp)
    · split at hres
      · exact absurd (ScanOutcome.result.inj hres).2 (by simp)
      · exact (ScanOutcome.result.inj hres).1.symm
      · exact absurd hres (by simp)

/-- Witness for C10: a non-byte-slice src leaves the concrete receiver
untouched. -/
theorem C10_scan_atomic_on_error_witness :
    EncryptedString.Scan toyOpen reg0 [9] SqlSrc.other =
      ScanOutcome.result [9] (some Err.srcNotBytes) ∧
    ([9] : Bytes) = [9] :=
  ⟨by decide,
   C10_scan_atomic_on_error toyOpen reg0 [9] [9] SqlSrc.other Err.srcNotBytes
     (by decide)⟩
